import Mathlib

/-!
Shallow embedding of the opt8 CHIP-8 core (`src/lib.rs`, module `core`) together
with the one concrete `Chip8State` implementation of the repository
(`src/concrete-interpreter.rs`, `ConcreteMachine`).

Machine integers are modelled as `Nat` with explicit `% 256` (u8 wrap) and
`% 4096` / `% 65536` (12- and 16-bit masks) where the Rust code wraps or masks.
Rust panics (`unwrap` on an empty operand stack, `unreachable!()` on a
wrong-tagged operand, `unimplemented!()`, failed `assert!`, `.expect`) are
modelled as `none`: no successor state is produced.
-/

namespace Opt8

/-- `Register8` from lib.rs. -/
inductive Register8 where
  | Generic : Nat → Register8
  | DelayTimer : Register8
  | SoundTimer : Register8
deriving DecidableEq, Repr

/-- `IntermediateValue` from lib.rs: the tagged operand-stack entries. -/
inductive IntermediateValue where
  | Bool : Bool → IntermediateValue
  | Addr : Nat → IntermediateValue
  | Byte : Nat → IntermediateValue
deriving DecidableEq, Repr

/-- `IntermediateInst` from lib.rs: the IL operations. -/
inductive IntermediateInst where
  | Illegal
  | ClearScreen
  | WriteScreen
  | WaitForKeypress
  | KeyPressed
  | HexCharAddr
  | RegRead : Register8 → IntermediateInst
  | RegWrite : Register8 → IntermediateInst
  | MemRead
  | MemWrite
  | GetI
  | SetI
  | SetPC
  | OffsetPC
  | CondSkipPC
  | Call
  | Ret
  | PushImm : Nat → IntermediateInst
  | PushImm16 : Nat → IntermediateInst
  | Swap2
  | PopIgnore
  | Rand
  | True
  | False
  | Equal
  | BoolNot
  | BoolOr
  | Select
  | Add
  | AddOv
  | BOr
  | BAnd
  | BXor
  | DivMod10
  | Neg
  | BShlOv
  | BShrOv
  | AddOffset
deriving DecidableEq, Repr

/--
The machine state: the data of `ConcreteMachine` (registers, pc, index
register, call stack, memory, timers, screen), plus oracle fields for the
host-provided operations of the `Chip8State` trait whose answers the core does
not compute itself (`keys` for `get_key_status`, `waitKey` for
`wait_for_keypress`, `hexAddr` for `get_hex_char_addr`).
The screen is one bit per pixel, indexed by `y * 64 + x` as in
`ConcreteMachine::screen_buf`.
-/
structure Machine where
  reg : Nat → Nat
  pc : Nat
  i : Nat
  stk : List Nat
  mem : Nat → Nat
  delay : Nat
  sound : Nat
  screen : Nat → Bool
  keys : Nat → Bool
  waitKey : Nat
  hexAddr : Nat → Nat

/-- `write_gp_register`. -/
def writeGp (s : Machine) (x v : Nat) : Machine :=
  { s with reg := fun r => if r = x then v else s.reg r }

/-- `read_mem`: `ConcreteMachine` masks the address to 12 bits. -/
def readMem (s : Machine) (a : Nat) : Nat := s.mem (a % 4096)

/-- `write_mem`: `ConcreteMachine` masks the address to 12 bits. -/
def writeMem (s : Machine) (a v : Nat) : Machine :=
  { s with mem := fun b => if b = a % 4096 then v else s.mem b }

/-- `clear_screen` (the `screen_clean`/`screen_dirty` render hints are not
state visible to the core and are not modelled). -/
def clearScreen (s : Machine) : Machine :=
  { s with screen := fun _ => false }

/-- One pixel toggle step of `screen_xor_line`; `wasOn` is the collision
accumulator `unset`. -/
def xorPixel (s : Machine) (idx : Nat) : Machine :=
  { s with screen := fun j => if j = idx then !s.screen j else s.screen j }

/-- The loop body of `screen_xor_line` over `xo = 0..8`, with the early
`break` when `x + xo > 0x3F`. -/
def xorLineGo (x y bits : Nat) : List Nat → Machine → Bool → Bool × Machine
  | [], s, unset => (unset, s)
  | xo :: rest, s, unset =>
    if x + xo > 63 then (unset, s)
    else
      let idx := y * 64 + (x + xo)
      if bits / 2 ^ (7 - xo) % 2 = 1 then
        -- bits & 1 << (7 - xo) != 0
        let hit := s.screen idx
        xorLineGo x y bits rest (xorPixel s idx) (unset || hit)
      else xorLineGo x y bits rest s unset

/-- `screen_xor_line` of `ConcreteMachine` (x is masked to 6 bits, y to 5). -/
def screenXorLine (s : Machine) (x y bits : Nat) : Bool × Machine :=
  if bits % 256 = 0 then (false, s)
  else xorLineGo (x % 64) (y % 32) bits [0, 1, 2, 3, 4, 5, 6, 7] s false

/-- The operand stack; the head of the list is the top of the `Vec`. -/
abbrev Stack := List IntermediateValue

/--
`IntermediateInst::execute`. Returns `none` where the Rust code panics:
`Illegal` (`panic!`), a pop from an empty stack (`unwrap`), a wrong operand
tag (`unreachable!` / `unimplemented!` in `Equal`/`Select`/`Add`/`AddOv`),
the `assert!(c < 0x10)` in `HexCharAddr`, and the operations with no match
arm that fall into the trailing `unimplemented!()`: `OffsetPC`, `Call`,
`Ret`, `Rand`, `RegRead`/`RegWrite` on the timer registers.
The returned `Bool` is the "program counter was redirected" flag.
Byte arithmetic is written with `% 256` (u8 wrap), `v >> 1` as `v / 2`,
`v << 1` as `v * 2 % 256`, `v & 0x80 != 0` as `v / 128 % 2 = 1`,
`v & 1 != 0` as `v % 2 = 1`.
-/
def execute (inst : IntermediateInst) (s : Machine) (stack : Stack) :
    Option (Machine × Stack × Bool) :=
  match inst with
  | .Illegal => none
  | .ClearScreen => some (clearScreen s, stack, false)
  | .WriteScreen =>
    match stack with
    | .Byte n :: .Byte y :: .Byte x :: rest =>
      let r := screenXorLine s (x % 64) (y % 32) n
      some (r.2, .Bool r.1 :: rest, false)
    | _ => none
  | .WaitForKeypress => some (s, .Byte s.waitKey :: stack, false)
  | .KeyPressed =>
    match stack with
    | .Byte k :: rest => some (s, .Bool (s.keys k) :: rest, false)
    | _ => none
  | .HexCharAddr =>
    match stack with
    | .Byte c :: rest =>
      if c < 16 then some (s, .Addr (s.hexAddr c) :: rest, false) else none
    | _ => none
  | .RegRead r =>
    match r with
    | .Generic x => some (s, .Byte (s.reg x) :: stack, false)
    | _ => none
  | .RegWrite r =>
    match r, stack with
    | .Generic x, .Byte v :: rest => some (writeGp s x v, rest, false)
    | .Generic x, .Bool b :: rest => some (writeGp s x (if b then 1 else 0), rest, false)
    | _, _ => none
  | .MemRead =>
    match stack with
    | .Addr a :: rest => some (s, .Byte (readMem s (a % 4096)) :: rest, false)
    | _ => none
  | .MemWrite =>
    match stack with
    | .Byte v :: .Addr a :: rest => some (writeMem s (a % 4096) v, rest, false)
    | _ => none
  | .GetI => some (s, .Addr s.i :: stack, false)
  | .SetI =>
    match stack with
    | .Addr a :: rest => some ({ s with i := a % 4096 }, rest, false)
    | _ => none
  | .SetPC =>
    match stack with
    | .Addr a :: rest => some ({ s with pc := a % 4096 }, rest, true)
    | _ => none
  | .OffsetPC => none
  | .CondSkipPC =>
    match stack with
    | .Bool b :: rest =>
      -- no 12-bit mask here: `state.set_pc(state.get_pc() + 4)`
      some ((if b then { s with pc := s.pc + 4 } else s), rest, b)
    | _ => none
  | .Call => none
  | .Ret => none
  | .PushImm v => some (s, .Byte v :: stack, false)
  | .PushImm16 v => some (s, .Addr v :: stack, false)
  | .Swap2 =>
    match stack with
    | a :: b :: rest => some (s, b :: a :: rest, false)
    | _ => none
  | .PopIgnore =>
    match stack with
    | _ :: rest => some (s, rest, false)
    | _ => none
  | .Rand => none
  | .True => some (s, .Bool true :: stack, false)
  | .False => some (s, .Bool false :: stack, false)
  | .Equal =>
    match stack with
    | .Byte a :: .Byte b :: rest => some (s, .Bool (a == b) :: rest, false)
    | _ => none
  | .BoolNot =>
    match stack with
    | .Bool v :: rest => some (s, .Bool (!v) :: rest, false)
    | _ => none
  | .BoolOr =>
    match stack with
    | .Bool a :: .Bool b :: rest => some (s, .Bool (a || b) :: rest, false)
    | _ => none
  | .Select =>
    match stack with
    | .Bool c :: .Byte b :: .Byte a :: rest =>
      some (s, (if c then IntermediateValue.Byte a else .Byte b) :: rest, false)
    | _ => none
  | .Add =>
    match stack with
    | .Byte a :: .Byte b :: rest => some (s, .Byte ((a + b) % 256) :: rest, false)
    | _ => none
  | .AddOv =>
    match stack with
    | .Byte a :: .Byte b :: rest =>
      some (s, .Bool (decide (256 ≤ a + b)) :: .Byte ((a + b) % 256) :: rest, false)
    | _ => none
  | .BOr =>
    match stack with
    | .Byte a :: .Byte b :: rest => some (s, .Byte (a ||| b) :: rest, false)
    | _ => none
  | .BAnd =>
    match stack with
    | .Byte a :: .Byte b :: rest => some (s, .Byte (a &&& b) :: rest, false)
    | _ => none
  | .BXor =>
    match stack with
    | .Byte a :: .Byte b :: rest => some (s, .Byte (a ^^^ b) :: rest, false)
    | _ => none
  | .DivMod10 =>
    match stack with
    | .Byte v :: rest => some (s, .Byte (v % 10) :: .Byte (v / 10) :: rest, false)
    | _ => none
  | .Neg =>
    match stack with
    | .Byte v :: rest => some (s, .Byte ((256 - v % 256) % 256) :: rest, false)
    | _ => none
  | .BShlOv =>
    match stack with
    | .Byte v :: rest =>
      some (s, .Bool (decide (v / 128 % 2 = 1)) :: .Byte (v * 2 % 256) :: rest, false)
    | _ => none
  | .BShrOv =>
    match stack with
    | .Byte v :: rest =>
      some (s, .Bool (decide (v % 2 = 1)) :: .Byte (v / 2) :: rest, false)
    | _ => none
  | .AddOffset =>
    match stack with
    | .Byte v :: .Addr a :: rest => some (s, .Addr ((a + v) % 4096) :: rest, false)
    | _ => none

/-- Execute a micro-program in order, accumulating the PC-redirect flag
(`pc_flag |= il.execute(...)` in `run_instruction`). -/
def runProg : List IntermediateInst → Machine → Stack → Bool →
    Option (Machine × Stack × Bool)
  | [], s, st, f => some (s, st, f)
  | op :: rest, s, st, f =>
    match execute op s st with
    | none => none
    | some (s1, st1, f1) => runProg rest s1 st1 (f || f1)

/-- The strictly sequential concatenation `f start ++ f (start+1) ++ …`
(`m` blocks), as produced by the `for` loops in `parse_instruction`. -/
def blockSeq (f : Nat → List IntermediateInst) : Nat → Nat → List IntermediateInst
  | _, 0 => []
  | start, m + 1 => f start ++ blockSeq f (start + 1) m

/-- The body pushed per iteration of the `Dxyn` loop in `parse_instruction`. -/
def drawBody (x y : Nat) (idx : Nat) : List IntermediateInst :=
  [.RegRead (.Generic x), .RegRead (.Generic y)]
    ++ (if idx = 0 then [] else [.PushImm idx, .Add])
    ++ [.GetI]
    ++ (if idx = 0 then [] else [.PushImm idx, .AddOffset])
    ++ [.MemRead, .WriteScreen, .BoolOr]

/-- The body pushed per iteration of the `Fx55` loop. -/
def storeBody (idx : Nat) : List IntermediateInst :=
  [.GetI, .RegRead (.Generic idx), .MemWrite, .GetI, .PushImm 1, .AddOffset, .SetI]

/-- The body pushed per iteration of the `Fx65` loop. -/
def loadBody (idx : Nat) : List IntermediateInst :=
  [.GetI, .MemRead, .RegWrite (.Generic idx), .GetI, .PushImm 1, .AddOffset, .SetI]

/--
`parse_instruction` from lib.rs. Nibbles `n1..n4` are extracted exactly as
`(inst & 0xF000) >> 12` etc.; `inst as u8` is `inst % 256`, `inst & 0xFFF` is
`inst % 4096`. Branches in which the Rust decoder panics on a failed
`assert!` (`8xy4/5/6/7/E` with `x = 15`, `Dxyn` with `x = 15` or `y = 15`)
also produce no micro-program and are modelled as `none`, like the
explicit `return None` arms.
In the `8xyN` group the Rust code builds `[RegRead x, RegRead y]` and for
`N ∈ {0,6,E}` calls `swap_remove(0)`, which removes `RegRead x` and keeps
`RegRead y`.
-/
def parse_instruction (inst : Nat) : Option (List IntermediateInst) :=
  let n2 := inst / 256 % 16
  let n3 := inst / 16 % 16
  let n4 := inst % 16
  let kk := inst % 256
  let nnn := inst % 4096
  match inst / 4096 % 16 with
  | 0x0 =>
    if inst = 0xE0 then some [.ClearScreen]
    else if inst = 0xEE then some [.Ret]
    else none
  | 0x1 => some [.PushImm16 nnn, .SetPC]
  | 0x2 => some [.PushImm16 nnn, .Call]
  | 0x3 => some [.RegRead (.Generic n2), .PushImm kk, .Equal, .CondSkipPC]
  | 0x4 => some [.RegRead (.Generic n2), .PushImm kk, .Equal, .BoolNot, .CondSkipPC]
  | 0x5 =>
    if n4 = 0 then
      some [.RegRead (.Generic n2), .RegRead (.Generic n3), .Equal, .CondSkipPC]
    else none
  | 0x6 => some [.PushImm kk, .RegWrite (.Generic n2)]
  | 0x7 => some [.RegRead (.Generic n2), .PushImm kk, .Add, .RegWrite (.Generic n2)]
  | 0x8 =>
    match n4 with
    | 0x0 => some [.RegRead (.Generic n3), .RegWrite (.Generic n2)]
    | 0x1 => some [.RegRead (.Generic n2), .RegRead (.Generic n3), .BOr,
                   .RegWrite (.Generic n2)]
    | 0x2 => some [.RegRead (.Generic n2), .RegRead (.Generic n3), .BAnd,
                   .RegWrite (.Generic n2)]
    | 0x3 => some [.RegRead (.Generic n2), .RegRead (.Generic n3), .BXor,
                   .RegWrite (.Generic n2)]
    | 0x4 =>
      if n2 = 15 then none
      else some [.RegRead (.Generic n2), .RegRead (.Generic n3), .AddOv,
                 .RegWrite (.Generic 15), .RegWrite (.Generic n2)]
    | 0x5 =>
      if n2 = 15 then none
      else some [.RegRead (.Generic n2), .RegRead (.Generic n3), .Neg, .AddOv,
                 .RegWrite (.Generic 15), .RegWrite (.Generic n2)]
    | 0x6 =>
      if n2 = 15 then none
      else some [.RegRead (.Generic n3), .BShrOv,
                 .RegWrite (.Generic 15), .RegWrite (.Generic n2)]
    | 0x7 =>
      if n2 = 15 then none
      else some [.RegRead (.Generic n3), .RegRead (.Generic n2), .Neg, .AddOv,
                 .RegWrite (.Generic 15), .RegWrite (.Generic n2)]
    | 0xE =>
      if n2 = 15 then none
      else some [.RegRead (.Generic n3), .BShlOv,
                 .RegWrite (.Generic 15), .RegWrite (.Generic n2)]
    | _ => none
  | 0x9 =>
    if n4 = 0 then
      some [.RegRead (.Generic n2), .RegRead (.Generic n3), .Equal, .BoolNot,
            .CondSkipPC]
    else none
  | 0xA => some [.PushImm16 nnn, .SetI]
  | 0xB => some [.PushImm16 nnn, .OffsetPC]
  | 0xC => some [.Rand, .PushImm kk, .BAnd, .RegWrite (.Generic n2)]
  | 0xD =>
    if n2 = 15 ∨ n3 = 15 then none
    else
      some ([.PushImm 1, .PushImm 0, .False]
        ++ blockSeq (drawBody n2 n3) 0 (if n4 = 0 then 16 else n4)
        ++ [.Select, .RegWrite (.Generic 15)])
  | 0xE =>
    match n3, n4 with
    | 0x9, 0xE => some [.RegRead (.Generic n2), .KeyPressed, .CondSkipPC]
    | 0xA, 0x1 => some [.RegRead (.Generic n2), .KeyPressed, .BoolNot, .CondSkipPC]
    | _, _ => none
  | 0xF =>
    match kk with
    | 0x07 => some [.RegRead .DelayTimer, .RegWrite (.Generic n2)]
    | 0x0A => some [.WaitForKeypress, .RegWrite (.Generic n2)]
    | 0x15 => some [.RegRead (.Generic n2), .RegWrite .DelayTimer]
    | 0x18 => some [.RegRead (.Generic n2), .RegWrite .SoundTimer]
    | 0x1E => some [.GetI, .RegRead (.Generic n2), .AddOffset, .SetI]
    | 0x29 => some [.RegRead (.Generic n2), .HexCharAddr, .SetI]
    | 0x33 => some [.RegRead (.Generic n2),
        .DivMod10, .GetI, .PushImm 2, .AddOffset, .Swap2, .MemWrite,
        .DivMod10, .GetI, .PushImm 1, .AddOffset, .Swap2, .MemWrite,
        .GetI, .Swap2, .MemWrite]
    | 0x55 => some (blockSeq storeBody 0 (n2 + 1))
    | 0x65 => some (blockSeq loadBody 0 (n2 + 1))
    | _ => none
  | _ => none

/-- The fetch of `run_instruction`:
`(read_mem(pc) as u16) << 8 | read_mem(pc + 1) as u16`. -/
def fetchWord (s : Machine) : Nat :=
  readMem s s.pc * 256 ||| readMem s (s.pc + 1)

/--
`run_instruction`: fetch, decode, execute against a fresh operand stack,
then advance the PC by 2 (masked to 12 bits) unless some operation set the
PC flag. `none` models the `.expect("Executed illegal instruction")` panic,
a panic inside `execute`, and the final `assert!(v.is_empty())`.
-/
def run_instruction (s : Machine) : Option Machine :=
  match parse_instruction (fetchWord s) with
  | none => none
  | some prog =>
    match runProg prog s [] false with
    | none => none
    | some (s1, stack, pcFlag) =>
      if stack.isEmpty then
        some (if pcFlag then s1 else { s1 with pc := (s1.pc + 2) % 4096 })
      else none

/-! ### Derived definitions used by the verification -/

/-- The micro-program `parse_instruction` emits for `Fx33` (binary-coded
decimal store). -/
def prog33 (x : Nat) : List IntermediateInst :=
  [.RegRead (.Generic x),
   .DivMod10, .GetI, .PushImm 2, .AddOffset, .Swap2, .MemWrite,
   .DivMod10, .GetI, .PushImm 1, .AddOffset, .Swap2, .MemWrite,
   .GetI, .Swap2, .MemWrite]

/-- Net state effect of one `Fx55` loop iteration (`storeBody idx`):
memory at `i` gets register `idx`, then `i` is advanced with 12-bit wrap. -/
def storeStep (idx : Nat) (s : Machine) : Machine :=
  { s with mem := fun b => if b = s.i % 4096 then s.reg idx else s.mem b,
           i := (s.i + 1) % 4096 }

/-- Iterated `storeStep` over register indices `j, j+1, …, j+m-1`. -/
def storeRun : Nat → Nat → Machine → Machine
  | _, 0, s => s
  | j, m + 1, s => storeRun (j + 1) m (storeStep j s)

/-- Net state effect of one `Fx65` loop iteration (`loadBody idx`):
register `idx` gets memory at `i`, then `i` is advanced with 12-bit wrap. -/
def loadStep (idx : Nat) (s : Machine) : Machine :=
  { s with reg := fun r => if r = idx then s.mem (s.i % 4096) else s.reg r,
           i := (s.i + 1) % 4096 }

/-- Iterated `loadStep` over register indices `j, j+1, …, j+m-1`. -/
def loadRun : Nat → Nat → Machine → Machine
  | _, 0, s => s
  | j, m + 1, s => loadRun (j + 1) m (loadStep j s)

/-- The operand tags of the spec data model: Boolean, Address, Byte. -/
inductive Tag where
  | bool : Tag
  | addr : Tag
  | byte : Tag
deriving DecidableEq, Repr

/-- The tag of a stack entry. -/
def tagOf : IntermediateValue → Tag
  | .Bool _ => .bool
  | .Addr _ => .addr
  | .Byte _ => .byte

/--
Static (value-free) stack effect of one IL operation: given the tags of the
operand stack, the tags after the operation, or `none` when the operation
can never execute successfully on a stack of that shape (wrong tag, stack
underflow, or an operation `execute` never implements).
-/
def stepTags (inst : IntermediateInst) (ts : List Tag) : Option (List Tag) :=
  match inst with
  | .Illegal => none
  | .ClearScreen => some ts
  | .WriteScreen =>
    match ts with
    | .byte :: .byte :: .byte :: r => some (.bool :: r)
    | _ => none
  | .WaitForKeypress => some (.byte :: ts)
  | .KeyPressed =>
    match ts with
    | .byte :: r => some (.bool :: r)
    | _ => none
  | .HexCharAddr =>
    match ts with
    | .byte :: r => some (.addr :: r)
    | _ => none
  | .RegRead r8 =>
    match r8 with
    | .Generic _ => some (.byte :: ts)
    | _ => none
  | .RegWrite r8 =>
    match r8, ts with
    | .Generic _, .byte :: r => some r
    | .Generic _, .bool :: r => some r
    | _, _ => none
  | .MemRead =>
    match ts with
    | .addr :: r => some (.byte :: r)
    | _ => none
  | .MemWrite =>
    match ts with
    | .byte :: .addr :: r => some r
    | _ => none
  | .GetI => some (.addr :: ts)
  | .SetI =>
    match ts with
    | .addr :: r => some r
    | _ => none
  | .SetPC =>
    match ts with
    | .addr :: r => some r
    | _ => none
  | .OffsetPC => none
  | .CondSkipPC =>
    match ts with
    | .bool :: r => some r
    | _ => none
  | .Call => none
  | .Ret => none
  | .PushImm _ => some (.byte :: ts)
  | .PushImm16 _ => some (.addr :: ts)
  | .Swap2 =>
    match ts with
    | a :: b :: r => some (b :: a :: r)
    | _ => none
  | .PopIgnore =>
    match ts with
    | _ :: r => some r
    | _ => none
  | .Rand => none
  | .True => some (.bool :: ts)
  | .False => some (.bool :: ts)
  | .Equal =>
    match ts with
    | .byte :: .byte :: r => some (.bool :: r)
    | _ => none
  | .BoolNot =>
    match ts with
    | .bool :: r => some (.bool :: r)
    | _ => none
  | .BoolOr =>
    match ts with
    | .bool :: .bool :: r => some (.bool :: r)
    | _ => none
  | .Select =>
    match ts with
    | .bool :: .byte :: .byte :: r => some (.byte :: r)
    | _ => none
  | .Add =>
    match ts with
    | .byte :: .byte :: r => some (.byte :: r)
    | _ => none
  | .AddOv =>
    match ts with
    | .byte :: .byte :: r => some (.bool :: .byte :: r)
    | _ => none
  | .BOr =>
    match ts with
    | .byte :: .byte :: r => some (.byte :: r)
    | _ => none
  | .BAnd =>
    match ts with
    | .byte :: .byte :: r => some (.byte :: r)
    | _ => none
  | .BXor =>
    match ts with
    | .byte :: .byte :: r => some (.byte :: r)
    | _ => none
  | .DivMod10 =>
    match ts with
    | .byte :: r => some (.byte :: .byte :: r)
    | _ => none
  | .Neg =>
    match ts with
    | .byte :: r => some (.byte :: r)
    | _ => none
  | .BShlOv =>
    match ts with
    | .byte :: r => some (.bool :: .byte :: r)
    | _ => none
  | .BShrOv =>
    match ts with
    | .byte :: r => some (.bool :: .byte :: r)
    | _ => none
  | .AddOffset =>
    match ts with
    | .byte :: .addr :: r => some (.addr :: r)
    | _ => none

/-- `stepTags` chained over a whole micro-program. -/
def chainTags : List IntermediateInst → List Tag → Option (List Tag)
  | [], ts => some ts
  | op :: rest, ts =>
    match stepTags op ts with
    | none => none
    | some ts1 => chainTags rest ts1

/-- A machine state with given register file, memory, PC and index register;
empty call stack, cleared screen, no keys pressed, the standard font layout
for `get_hex_char_addr`. Used for concrete test states. -/
def mkMachine (regf memf : Nat → Nat) (pc0 i0 : Nat) : Machine :=
  { reg := regf, pc := pc0, i := i0, stk := [], mem := memf, delay := 0, sound := 0,
    screen := fun _ => false, keys := fun _ => false, waitKey := 0,
    hexAddr := fun c => 5 * c }

/-- Concrete state refuting C1: register 0 (the x register of `8016`) holds 0,
register 1 (the y register) holds 2. -/
def C1s : Machine := mkMachine (fun r => if r = 1 then 2 else 0) (fun _ => 0) 0x200 0

/-- Concrete state refuting C3: PC = 0xFFE, memory holds the opcode `3000`
there (skip if register 0 = 0), and register 0 is 0, so the skip is taken. -/
def C3s : Machine := mkMachine (fun _ => 0) (fun a => if a = 0xFFE then 0x30 else 0) 0xFFE 0

/-- Concrete state whose fetched word is the unrecognized opcode 0x5001. -/
def C5s : Machine :=
  mkMachine (fun _ => 0) (fun a => if a = 0 then 0x50 else if a = 1 then 1 else 0) 0 0

/-- An arbitrary concrete state for evaluating panicking micro-programs. -/
def C6s : Machine := mkMachine (fun _ => 0) (fun _ => 0) 0x200 0

/-- Concrete state executing `00E0` (clear screen) at PC 0. -/
def W3s : Machine := mkMachine (fun _ => 0) (fun a => if a = 1 then 0xE0 else 0) 0 7

/-- Concrete state for the C9 witness: opcode `3005` at PC 0x200,
register 0 holds 5, so the skip is taken. -/
def W9s : Machine :=
  mkMachine (fun _ => 5) (fun a => if a = 0x200 then 0x30 else if a = 0x201 then 5 else 0)
    0x200 0

/-- Concrete state refuting C9 at the top of memory: PC = 0xFFE, opcode
`3005` there (skip if register 0 = 5), register 0 holds 0, so the skip is not
taken and the driver's masked advance wraps the PC to 0. -/
def C9s : Machine :=
  mkMachine (fun _ => 0)
    (fun a => if a = 0xFFE then 0x30 else if a = 0xFFF then 5 else 0) 0xFFE 0

/-- Concrete state for witnesses running single micro-programs: register r
holds 10 + r, PC = 0x200, index register = 0x300. -/
def Ws : Machine := mkMachine (fun r => 10 + r) (fun _ => 0) 0x200 0x300

/-- Concrete state for the C8 witness: register 3 holds 255. -/
def W8s : Machine :=
  mkMachine (fun r => if r = 3 then 255 else 0) (fun _ => 0) 0x200 0x300

/-! ### General helper lemmas -/

theorem lor_as_add (h l : Nat) (hl : l < 256) : h * 256 ||| l = h * 256 + l := by
  have key : ∀ j, (h * 256).testBit j = if j < 8 then false else h.testBit (j - 8) := by
    intro j
    rw [show h * 256 = h <<< 8 by rw [Nat.shiftLeft_eq]]
    rw [Nat.testBit_shiftLeft]
    by_cases hj : j < 8 <;> simp [hj] <;> omega
  apply Nat.eq_of_testBit_eq
  intro j
  rw [Nat.testBit_lor]
  rw [show h * 256 + l = 2 ^ 8 * h + l by ring]
  rw [Nat.testBit_mul_pow_two_add h (show l < 2 ^ 8 from hl) j]
  rw [key j]
  by_cases hj : j < 8
  · simp [hj]
  · have h2j : (256 : Nat) ≤ 2 ^ j := by
      calc (256 : Nat) = 2 ^ 8 := by norm_num
      _ ≤ 2 ^ j := Nat.pow_le_pow_right (by norm_num) (Nat.not_lt.mp hj)
    have hlj : l.testBit j = false := Nat.testBit_lt_two_pow (lt_of_lt_of_le hl h2j)
    simp [hj, hlj]

theorem xorLineGo_screenOnly (x y bits : Nat) :
    ∀ (l : List Nat) (s : Machine) (u : Bool),
      ∃ scr, (xorLineGo x y bits l s u).2 = { s with screen := scr } := by
  intro l
  induction l with
  | nil => intro s u; exact ⟨s.screen, rfl⟩
  | cons xo rest ih =>
    intro s u
    simp only [xorLineGo]
    split
    · exact ⟨s.screen, rfl⟩
    · split
      · obtain ⟨scr, hscr⟩ :=
          ih (xorPixel s (y * 64 + (x + xo))) (u || s.screen (y * 64 + (x + xo)))
        exact ⟨scr, hscr⟩
      · exact ih s u

theorem screenXorLine_i (s : Machine) (x y bits : Nat) :
    (screenXorLine s x y bits).2.i = s.i := by
  unfold screenXorLine
  split
  · rfl
  · obtain ⟨scr, h⟩ := xorLineGo_screenOnly (x % 64) (y % 32) bits
      [0, 1, 2, 3, 4, 5, 6, 7] s false
    rw [h]

theorem screenXorLine_pc (s : Machine) (x y bits : Nat) :
    (screenXorLine s x y bits).2.pc = s.pc := by
  unfold screenXorLine
  split
  · rfl
  · obtain ⟨scr, h⟩ := xorLineGo_screenOnly (x % 64) (y % 32) bits
      [0, 1, 2, 3, 4, 5, 6, 7] s false
    rw [h]

/-! ### Operand-tag soundness: the static stack effect tracks execution -/

theorem execute_tags (op : IntermediateInst) (s : Machine) (st : Stack)
    (r : Machine × Stack × Bool) (h : execute op s st = some r) :
    stepTags op (st.map tagOf) = some (r.2.1.map tagOf) := by
  cases op <;> simp only [execute] at h <;> (repeat' split at h) <;>
    (try simp only [Option.some.injEq] at h) <;>
    first
      | exact Option.noConfusion h
      | (subst h; rfl)

theorem runProg_tags (l : List IntermediateInst) :
    ∀ (s : Machine) (st : Stack) (f : Bool) (r : Machine × Stack × Bool),
      runProg l s st f = some r →
      chainTags l (st.map tagOf) = some (r.2.1.map tagOf) := by
  induction l with
  | nil =>
    intro s st f r h
    injection h with h1
    subst h1
    rfl
  | cons op rest ih =>
    intro s st f r h
    simp only [runProg] at h
    split at h
    · exact Option.noConfusion h
    · rename_i s1 st1 f1 hexec
      have h1 := execute_tags op s st (s1, st1, f1) hexec
      simp only [chainTags, h1]
      exact ih s1 st1 (f || f1) r h

theorem chainTags_append (p q : List IntermediateInst) :
    ∀ ts, chainTags (p ++ q) ts =
      match chainTags p ts with
      | none => none
      | some ts1 => chainTags q ts1 := by
  induction p with
  | nil => intro ts; rfl
  | cons op rest ih =>
    intro ts
    simp only [List.cons_append, chainTags]
    cases stepTags op ts with
    | none => rfl
    | some ts1 => exact ih ts1

theorem chainTags_drawBody (x y idx : Nat) (r : List Tag) :
    chainTags (drawBody x y idx) (.bool :: .byte :: .byte :: r) =
      some (.bool :: .byte :: .byte :: r) := by
  by_cases h : idx = 0 <;> simp [drawBody, h, chainTags, stepTags]

theorem chainTags_drawSeq (x y : Nat) :
    ∀ (m j : Nat) (r : List Tag),
      chainTags (blockSeq (drawBody x y) j m) (.bool :: .byte :: .byte :: r) =
        some (.bool :: .byte :: .byte :: r) := by
  intro m
  induction m with
  | zero => intro j r; rfl
  | succ m ih =>
    intro j r
    simp only [blockSeq, chainTags_append, chainTags_drawBody]
    exact ih (j + 1) r

theorem chainTags_storeBody (idx : Nat) (ts : List Tag) :
    chainTags (storeBody idx) ts = some ts := by
  simp [storeBody, chainTags, stepTags]

theorem chainTags_storeSeq :
    ∀ (m j : Nat) (ts : List Tag), chainTags (blockSeq storeBody j m) ts = some ts := by
  intro m
  induction m with
  | zero => intro j ts; rfl
  | succ m ih =>
    intro j ts
    simp only [blockSeq, chainTags_append, chainTags_storeBody]
    exact ih (j + 1) ts

theorem chainTags_loadBody (idx : Nat) (ts : List Tag) :
    chainTags (loadBody idx) ts = some ts := by
  simp [loadBody, chainTags, stepTags]

theorem chainTags_loadSeq :
    ∀ (m j : Nat) (ts : List Tag), chainTags (blockSeq loadBody j m) ts = some ts := by
  intro m
  induction m with
  | zero => intro j ts; rfl
  | succ m ih =>
    intro j ts
    simp only [blockSeq, chainTags_append, chainTags_loadBody]
    exact ih (j + 1) ts

/-- Every micro-program the decoder emits has static stack effect
`[] → some []`, or contains an operation that can never execute (`none`). -/
theorem parse_chainTags (inst : Nat) (prog : List IntermediateInst)
    (hparse : parse_instruction inst = some prog) :
    chainTags prog [] = some [] ∨ chainTags prog [] = none := by
  simp only [parse_instruction] at hparse
  split at hparse <;>
    (repeat' split at hparse) <;>
    first
      | exact Option.noConfusion hparse
      | (injection hparse with h1; subst h1
         first
           | (left; rfl)
           | (right; rfl)
           | (left; exact chainTags_storeSeq _ _ [])
           | (left; exact chainTags_loadSeq _ _ [])
           | (left
              rw [chainTags_append, chainTags_append]
              rw [show chainTags [IntermediateInst.PushImm 1, .PushImm 0, .False]
                    ([] : List Tag) = some [Tag.bool, .byte, .byte] from rfl]
              simp only [chainTags_drawSeq]
              rfl))

/-! ### 12-bit masking facts for the program counter and index register -/

theorem execute_i (op : IntermediateInst) (s : Machine) (st : Stack)
    (r : Machine × Stack × Bool) (h : execute op s st = some r) :
    r.1.i = s.i ∨ r.1.i < 4096 := by
  cases op <;> simp only [execute] at h <;> (repeat' split at h) <;>
    (try simp only [Option.some.injEq] at h) <;>
    first
      | exact Option.noConfusion h
      | (subst h
         first
           | (left; rfl)
           | (right; exact Nat.mod_lt _ (by norm_num))
           | (left; exact screenXorLine_i _ _ _ _))

theorem execute_pc (op : IntermediateInst) (s : Machine) (st : Stack)
    (r : Machine × Stack × Bool) (h : execute op s st = some r) :
    r.1.pc = s.pc ∨ r.1.pc < 4096 ∨ ∃ p, r.1.pc = p + 4 := by
  cases op <;> simp only [execute] at h <;> (repeat' split at h) <;>
    (try simp only [Option.some.injEq] at h) <;>
    first
      | exact Option.noConfusion h
      | (subst h
         first
           | (left; rfl)
           | (right; left; exact Nat.mod_lt _ (by norm_num))
           | (right; right; exact ⟨s.pc, rfl⟩)
           | (left; exact screenXorLine_pc _ _ _ _))

theorem execute_flag_pc (op : IntermediateInst) (s : Machine) (st : Stack)
    (r : Machine × Stack × Bool) (h : execute op s st = some r)
    (hf : r.2.2 = true) : r.1.pc < 4096 ∨ ∃ p, r.1.pc = p + 4 := by
  cases op <;> simp only [execute] at h <;> (repeat' split at h) <;>
    (try simp only [Option.some.injEq] at h) <;>
    first
      | exact Option.noConfusion h
      | (subst h
         first
           | exact Bool.noConfusion hf
           | (left; exact Nat.mod_lt _ (by norm_num))
           | (right; exact ⟨s.pc, rfl⟩)
           | simp_all)

theorem runProg_i (l : List IntermediateInst) :
    ∀ (s : Machine) (st : Stack) (f : Bool) (r : Machine × Stack × Bool),
      runProg l s st f = some r → r.1.i = s.i ∨ r.1.i < 4096 := by
  induction l with
  | nil =>
    intro s st f r h
    injection h with h1
    subst h1
    left; rfl
  | cons op rest ih =>
    intro s st f r h
    simp only [runProg] at h
    split at h
    · exact Option.noConfusion h
    · rename_i s1 st1 f1 hexec
      rcases ih s1 st1 (f || f1) r h with h2 | h2
      · rcases execute_i op s st (s1, st1, f1) hexec with h3 | h3
        · left; rw [h2]; exact h3
        · right; rw [h2]; exact h3
      · right; exact h2

theorem runProg_pc (l : List IntermediateInst) :
    ∀ (s : Machine) (st : Stack) (f : Bool) (r : Machine × Stack × Bool),
      runProg l s st f = some r →
      r.1.pc = s.pc ∨ r.1.pc < 4096 ∨ ∃ p, r.1.pc = p + 4 := by
  induction l with
  | nil =>
    intro s st f r h
    injection h with h1
    subst h1
    left; rfl
  | cons op rest ih =>
    intro s st f r h
    simp only [runProg] at h
    split at h
    · exact Option.noConfusion h
    · rename_i s1 st1 f1 hexec
      rcases ih s1 st1 (f || f1) r h with h2 | h2 | h2
      · rcases execute_pc op s st (s1, st1, f1) hexec with h3 | h3 | h3
        · left; rw [h2]; exact h3
        · right; left; rw [h2]; exact h3
        · right; right; rw [h2]; exact h3
      · right; left; exact h2
      · right; right; exact h2

theorem runProg_flag_pc (l : List IntermediateInst) :
    ∀ (s : Machine) (st : Stack) (f : Bool) (r : Machine × Stack × Bool),
      runProg l s st f = some r → r.2.2 = true →
      f = true ∨ r.1.pc < 4096 ∨ ∃ p, r.1.pc = p + 4 := by
  induction l with
  | nil =>
    intro s st f r h hf
    injection h with h1
    subst h1
    left; exact hf
  | cons op rest ih =>
    intro s st f r h hf
    simp only [runProg] at h
    split at h
    · exact Option.noConfusion h
    · rename_i s1 st1 f1 hexec
      rcases ih s1 st1 (f || f1) r h hf with h2 | h2
      · rcases Bool.or_eq_true_iff.mp h2 with hl | hr
        · left; exact hl
        · have hP := execute_flag_pc op s st (s1, st1, f1) hexec hr
          rcases runProg_pc rest s1 st1 (f || f1) r h with h3 | h3 | h3
          · right
            rcases hP with hP | hP
            · left; rw [h3]; exact hP
            · right; rw [h3]; exact hP
          · right; left; exact h3
          · right; right; exact h3
      · right; exact h2

theorem run_instruction_i (s fin : Machine) (h : run_instruction s = some fin) :
    fin.i = s.i ∨ fin.i < 4096 := by
  unfold run_instruction at h
  split at h
  · exact Option.noConfusion h
  · rename_i prog hparse
    split at h
    · exact Option.noConfusion h
    · rename_i s1 stk fl hrun
      split at h
      · injection h with h1
        have hi := runProg_i prog s [] false (s1, stk, fl) hrun
        subst h1
        cases fl <;> simpa using hi
      · exact Option.noConfusion h

theorem run_instruction_pc (s fin : Machine) (h : run_instruction s = some fin) :
    fin.pc < 4096 ∨ ∃ p, fin.pc = p + 4 := by
  unfold run_instruction at h
  split at h
  · exact Option.noConfusion h
  · rename_i prog hparse
    split at h
    · exact Option.noConfusion h
    · rename_i s1 stk fl hrun
      split at h
      · injection h with h1
        subst h1
        cases fl with
        | true =>
          have := runProg_flag_pc prog s [] false (s1, stk, true) hrun rfl
          simpa using this
        | false =>
          left
          simp only [Bool.false_eq_true, if_false]
          exact Nat.mod_lt _ (by norm_num)
      · exact Option.noConfusion h

/-! ### Sequential execution of the batch store and load loops -/

theorem runProg_append (p q : List IntermediateInst) :
    ∀ (s : Machine) (st : Stack) (f : Bool),
      runProg (p ++ q) s st f =
        match runProg p s st f with
        | none => none
        | some (s1, st1, f1) => runProg q s1 st1 f1 := by
  induction p with
  | nil => intro s st f; rfl
  | cons op rest ih =>
    intro s st f
    simp only [List.cons_append, runProg]
    cases execute op s st with
    | none => rfl
    | some r => exact ih r.1 r.2.1 (f || r.2.2)

theorem runProg_storeBody (idx : Nat) (s : Machine) (f : Bool) :
    runProg (storeBody idx) s [] f = some (storeStep idx s, [], f) := by
  simp [storeBody, runProg, execute, writeMem, storeStep, readMem]

theorem runProg_storeSeq :
    ∀ (m j : Nat) (s : Machine) (f : Bool),
      runProg (blockSeq storeBody j m) s [] f = some (storeRun j m s, [], f) := by
  intro m
  induction m with
  | zero => intro j s f; rfl
  | succ m ih =>
    intro j s f
    simp only [blockSeq, runProg_append, runProg_storeBody]
    exact ih (j + 1) (storeStep j s) f

theorem runProg_loadBody (idx : Nat) (s : Machine) (f : Bool) :
    runProg (loadBody idx) s [] f = some (loadStep idx s, [], f) := by
  simp [loadBody, runProg, execute, writeGp, loadStep, readMem]

theorem runProg_loadSeq :
    ∀ (m j : Nat) (s : Machine) (f : Bool),
      runProg (blockSeq loadBody j m) s [] f = some (loadRun j m s, [], f) := by
  intro m
  induction m with
  | zero => intro j s f; rfl
  | succ m ih =>
    intro j s f
    simp only [blockSeq, runProg_append, runProg_loadBody]
    exact ih (j + 1) (loadStep j s) f

theorem storeRun_reg : ∀ (m j : Nat) (s : Machine), (storeRun j m s).reg = s.reg := by
  intro m
  induction m with
  | zero => intro j s; rfl
  | succ m ih => intro j s; rw [storeRun, ih]; rfl

theorem storeRun_mem_frame :
    ∀ (m j : Nat) (s : Machine) (a : Nat),
      (∀ k, k < m → a ≠ (s.i + k) % 4096) →
      (storeRun j m s).mem a = s.mem a := by
  intro m
  induction m with
  | zero => intro j s a _; rfl
  | succ m ih =>
    intro j s a ha
    rw [storeRun, ih]
    · show (if a = s.i % 4096 then s.reg j else s.mem a) = s.mem a
      rw [if_neg]
      intro hcontra
      exact ha 0 (Nat.succ_pos m) (by omega)
    · intro k hk
      show a ≠ ((s.i + 1) % 4096 + k) % 4096
      have := ha (k + 1) (by omega)
      omega

theorem storeRun_mem_written :
    ∀ (m j : Nat) (s : Machine) (k : Nat), k < m → m ≤ 4096 →
      (storeRun j m s).mem ((s.i + k) % 4096) = s.reg (j + k) := by
  intro m
  induction m with
  | zero => intro j s k hk _; omega
  | succ m ih =>
    intro j s k hk hm
    cases k with
    | zero =>
      rw [storeRun]
      rw [storeRun_mem_frame m (j + 1) (storeStep j s) ((s.i + 0) % 4096) ?_]
      · show (if (s.i + 0) % 4096 = s.i % 4096 then s.reg j else s.mem _) = s.reg (j + 0)
        rw [if_pos (by omega)]
        simp
      · intro t ht
        show (s.i + 0) % 4096 ≠ ((s.i + 1) % 4096 + t) % 4096
        omega
    | succ t =>
      rw [storeRun]
      have h1 := ih (j + 1) (storeStep j s) t (by omega) (by omega)
      have h2 : ((storeStep j s).i + t) % 4096 = (s.i + (t + 1)) % 4096 := by
        show ((s.i + 1) % 4096 + t) % 4096 = (s.i + (t + 1)) % 4096
        omega
      rw [h2] at h1
      rw [h1]
      show s.reg (j + 1 + t) = s.reg (j + (t + 1))
      congr 1
      omega

theorem loadRun_mem : ∀ (m j : Nat) (s : Machine), (loadRun j m s).mem = s.mem := by
  intro m
  induction m with
  | zero => intro j s; rfl
  | succ m ih => intro j s; rw [loadRun, ih]; rfl

theorem loadRun_reg_frame :
    ∀ (m j : Nat) (s : Machine) (x : Nat), (x < j ∨ j + m ≤ x) →
      (loadRun j m s).reg x = s.reg x := by
  intro m
  induction m with
  | zero => intro j s x _; rfl
  | succ m ih =>
    intro j s x hx
    rw [loadRun, ih]
    · show (if x = j then _ else s.reg x) = s.reg x
      rw [if_neg (by omega)]
    · omega

theorem loadRun_reg_written :
    ∀ (m j : Nat) (s : Machine) (k : Nat), k < m →
      (loadRun j m s).reg (j + k) = s.mem ((s.i + k) % 4096) := by
  intro m
  induction m with
  | zero => intro j s k hk; omega
  | succ m ih =>
    intro j s k hk
    cases k with
    | zero =>
      rw [loadRun]
      rw [loadRun_reg_frame m (j + 1) (loadStep j s) (j + 0) (by omega)]
      simp only [Nat.add_zero]
      show (if j = j then s.mem (s.i % 4096) else _) = s.mem (s.i % 4096)
      rw [if_pos rfl]
    | succ t =>
      rw [loadRun]
      have h1 := ih (j + 1) (loadStep j s) t (by omega)
      have h2 : ((loadStep j s).i + t) % 4096 = (s.i + (t + 1)) % 4096 := by
        show ((s.i + 1) % 4096 + t) % 4096 = (s.i + (t + 1)) % 4096
        omega
      rw [h2] at h1
      have h3 : j + 1 + t = j + (t + 1) := by omega
      rw [h3] at h1
      rw [h1]
      show (loadStep j s).mem ((s.i + (t + 1)) % 4096) = s.mem ((s.i + (t + 1)) % 4096)
      rfl

/-- The result of the `Fx33` micro-program on state `s`: the three decimal
digits of register x written below the (unchanged) index register. -/
theorem runProg_prog33 (x : Nat) (s : Machine) :
    runProg (prog33 x) s [] false =
      some (writeMem (writeMem (writeMem s ((s.i + 2) % 4096 % 4096) (s.reg x % 10))
              ((s.i + 1) % 4096 % 4096) (s.reg x / 10 % 10))
            (s.i % 4096) (s.reg x / 10 / 10), [], false) := by
  rfl

/-! ### Claim theorems -/

/-- C1 (counterexample): opcode `8016` — shift-right with x = 0, y = 1 — on a
state where register 0 holds 0 and register 1 holds 2 leaves register 0 equal
to 1 = (register 1) >> 1, not 0 = (register 0) >> 1: the decoded micro-program
does NOT ignore register y; it shifts register y's value, so the claim that
register x is shifted in place and register y has no influence is false. -/
theorem C1_counterexample :
    (runProg ((parse_instruction 0x8016).getD []) C1s [] false).map
      (fun t => (t.1.reg 0, t.1.reg 15)) = some (1, 0) ∧
    C1s.reg 0 = 0 ∧ (1 : Nat) ≠ C1s.reg 0 / 2 :=
  ⟨rfl, rfl, by decide⟩

/-- C1 (amended): for `8xy6`/`8xyE` with x ≠ 15 the decoded micro-program
reads register y, shifts register y's value by one bit, writes the result to
register x and the shifted-out bit of register y's value to register 15;
register x's prior value has no influence. -/
theorem C1_shift_uses_reg_y (x y : Nat) (hx : x < 16) (hy : y < 16)
    (hx15 : x ≠ 15) (s : Machine) (hv : s.reg y < 256) :
    (∃ prog fin, parse_instruction (0x8006 + 256 * x + 16 * y) = some prog ∧
      runProg prog s [] false = some (fin, [], false) ∧
      fin.reg x = s.reg y / 2 ∧ fin.reg 15 = s.reg y % 2) ∧
    (∃ prog fin, parse_instruction (0x800E + 256 * x + 16 * y) = some prog ∧
      runProg prog s [] false = some (fin, [], false) ∧
      fin.reg x = s.reg y * 2 % 256 ∧ fin.reg 15 = s.reg y / 128) := by
  constructor
  · have h1 : (0x8006 + 256 * x + 16 * y) / 4096 % 16 = 8 := by omega
    have h2 : (0x8006 + 256 * x + 16 * y) / 256 % 16 = x := by omega
    have h3 : (0x8006 + 256 * x + 16 * y) / 16 % 16 = y := by omega
    have h4 : (0x8006 + 256 * x + 16 * y) % 16 = 6 := by omega
    refine ⟨[.RegRead (.Generic y), .BShrOv, .RegWrite (.Generic 15),
             .RegWrite (.Generic x)],
            writeGp (writeGp s 15 (if s.reg y % 2 = 1 then 1 else 0)) x (s.reg y / 2),
            ?_, ?_, ?_, ?_⟩
    · simp only [parse_instruction, h1, h2, h3, h4]
      simp [hx15]
    · simp [runProg, execute]
    · simp [writeGp]
    · simp [writeGp, Ne.symm hx15]
      by_cases h5 : s.reg y % 2 = 1 <;> simp [h5] <;> omega
  · have h1 : (0x800E + 256 * x + 16 * y) / 4096 % 16 = 8 := by omega
    have h2 : (0x800E + 256 * x + 16 * y) / 256 % 16 = x := by omega
    have h3 : (0x800E + 256 * x + 16 * y) / 16 % 16 = y := by omega
    have h4 : (0x800E + 256 * x + 16 * y) % 16 = 14 := by omega
    refine ⟨[.RegRead (.Generic y), .BShlOv, .RegWrite (.Generic 15),
             .RegWrite (.Generic x)],
            writeGp (writeGp s 15 (if s.reg y / 128 % 2 = 1 then 1 else 0)) x
              (s.reg y * 2 % 256),
            ?_, ?_, ?_, ?_⟩
    · simp only [parse_instruction, h1, h2, h3, h4]
      simp [hx15]
    · simp [runProg, execute]
    · simp [writeGp]
    · simp [writeGp, Ne.symm hx15]
      by_cases h5 : s.reg y / 128 % 2 = 1 <;> simp [h5] <;> omega

/-- C1 (witness): the amended shift theorem applied at x = 0, y = 1 on the
concrete state `Ws` (register 1 holds 11). -/
theorem C1_witness :
    (∃ prog fin, parse_instruction (0x8006 + 256 * 0 + 16 * 1) = some prog ∧
      runProg prog Ws [] false = some (fin, [], false) ∧
      fin.reg 0 = Ws.reg 1 / 2 ∧ fin.reg 15 = Ws.reg 1 % 2) ∧
    (∃ prog fin, parse_instruction (0x800E + 256 * 0 + 16 * 1) = some prog ∧
      runProg prog Ws [] false = some (fin, [], false) ∧
      fin.reg 0 = Ws.reg 1 * 2 % 256 ∧ fin.reg 15 = Ws.reg 1 / 128) :=
  C1_shift_uses_reg_y 0 1 (by decide) (by decide) (by decide) Ws (by decide)

/-- C2: executing the `8xy4` micro-program (x ≠ 15) sets register x to
(a + b) mod 256 and register 15 to 1 exactly when a + b ≥ 256, where a and b
are the bytes held in registers x and y. -/
theorem C2_add_with_carry (x y : Nat) (hx : x < 16) (hy : y < 16)
    (hx15 : x ≠ 15) (s : Machine) (ha : s.reg x < 256) (hb : s.reg y < 256) :
    ∃ prog fin, parse_instruction (0x8004 + 256 * x + 16 * y) = some prog ∧
      runProg prog s [] false = some (fin, [], false) ∧
      fin.reg x = (s.reg x + s.reg y) % 256 ∧
      fin.reg 15 = (if 256 ≤ s.reg x + s.reg y then 1 else 0) := by
  have h1 : (0x8004 + 256 * x + 16 * y) / 4096 % 16 = 8 := by omega
  have h2 : (0x8004 + 256 * x + 16 * y) / 256 % 16 = x := by omega
  have h3 : (0x8004 + 256 * x + 16 * y) / 16 % 16 = y := by omega
  have h4 : (0x8004 + 256 * x + 16 * y) % 16 = 4 := by omega
  refine ⟨[.RegRead (.Generic x), .RegRead (.Generic y), .AddOv,
           .RegWrite (.Generic 15), .RegWrite (.Generic x)],
          writeGp (writeGp s 15 (if 256 ≤ s.reg y + s.reg x then 1 else 0)) x
            ((s.reg y + s.reg x) % 256), ?_, ?_, ?_, ?_⟩
  · simp only [parse_instruction, h1, h2, h3, h4]
    simp [hx15]
  · simp [runProg, execute]
  · simp [writeGp, Nat.add_comm]
  · simp [writeGp, Ne.symm hx15, Nat.add_comm]

/-- C2 (witness): add-with-carry applied at x = 1, y = 2 on `Ws`
(register 1 holds 11, register 2 holds 12). -/
theorem C2_witness :
    ∃ prog fin, parse_instruction (0x8004 + 256 * 1 + 16 * 2) = some prog ∧
      runProg prog Ws [] false = some (fin, [], false) ∧
      fin.reg 1 = (Ws.reg 1 + Ws.reg 2) % 256 ∧
      fin.reg 15 = (if 256 ≤ Ws.reg 1 + Ws.reg 2 then 1 else 0) :=
  C2_add_with_carry 1 2 (by decide) (by decide) (by decide) Ws (by decide) (by decide)

/-- C3 (counterexample): a full fetch-execute cycle from PC = 0xFFE on opcode
`3000` with register 0 = 0 takes the skip and leaves PC = 0x1002, which is not
below 0x1000 — `CondSkipPC` writes `pc + 4` without the 12-bit mask, so the
claimed invariant fails. -/
theorem C3_counterexample :
    (run_instruction C3s).map Machine.pc = some 0x1002 ∧
    ¬ (0x1002 : Nat) < 0x1000 :=
  ⟨rfl, by decide⟩

/-- C3 (amended): `SetPC` and `SetI` mask their operand to 12 bits before
writing, and the driver's post-execution advance is masked, so the index
register after any completed cycle is unchanged or below 0x1000; but
`CondSkipPC` writes PC + 4 unmasked, so the PC after a completed cycle is
only guaranteed to be below 0x1000 or of the form p + 4 for the unmasked
taken-skip case. -/
theorem C3_masking :
    (∀ (s : Machine) (a : Nat) (st : Stack),
      execute .SetPC s (.Addr a :: st) = some ({ s with pc := a % 4096 }, st, true)) ∧
    (∀ (s : Machine) (a : Nat) (st : Stack),
      execute .SetI s (.Addr a :: st) = some ({ s with i := a % 4096 }, st, false)) ∧
    (∀ (s : Machine) (b : Bool) (st : Stack),
      execute .CondSkipPC s (.Bool b :: st) =
        some ((if b then { s with pc := s.pc + 4 } else s), st, b)) ∧
    (∀ s fin, run_instruction s = some fin → fin.i = s.i ∨ fin.i < 4096) ∧
    (∀ s fin, run_instruction s = some fin →
      fin.pc < 4096 ∨ ∃ p, fin.pc = p + 4) :=
  ⟨fun _ _ _ => rfl, fun _ _ _ => rfl, fun _ _ _ => rfl,
   run_instruction_i, run_instruction_pc⟩

/-- C3 (witness): the completed-cycle conjuncts of the masking theorem applied
to the concrete state `W3s` executing `00E0`. -/
theorem C3_witness :
    (({ clearScreen W3s with pc := 2 } : Machine).i = W3s.i ∨
      ({ clearScreen W3s with pc := 2 } : Machine).i < 4096) ∧
    (({ clearScreen W3s with pc := 2 } : Machine).pc < 4096 ∨
      ∃ p, ({ clearScreen W3s with pc := 2 } : Machine).pc = p + 4) :=
  ⟨C3_masking.2.2.2.1 W3s { clearScreen W3s with pc := 2 } rfl,
   C3_masking.2.2.2.2 W3s { clearScreen W3s with pc := 2 } rfl⟩

/-- C4: whenever the decoder produces a micro-program for an opcode and that
whole micro-program executes successfully on any machine state from an empty
operand stack, the operand stack is empty again at the end. -/
theorem C4_stack_discipline (inst : Nat) (prog : List IntermediateInst)
    (s fin : Machine) (stk : Stack) (f : Bool)
    (hparse : parse_instruction inst = some prog)
    (hrun : runProg prog s [] false = some (fin, stk, f)) :
    stk = [] := by
  have htags := runProg_tags prog s [] false (fin, stk, f) hrun
  simp only [List.map_nil] at htags
  rcases parse_chainTags inst prog hparse with hok | hnone
  · rw [hok] at htags
    injection htags with h1
    cases stk with
    | nil => rfl
    | cons a tl => simp at h1
  · rw [hnone] at htags
    exact Option.noConfusion htags

/-- C4 (witness): stack discipline applied to the concrete opcode `6012`
(load immediate 0x12 into register 0) on the state `C6s`. -/
theorem C4_witness :
    parse_instruction 0x6012 = some [.PushImm 18, .RegWrite (.Generic 0)] ∧
    runProg [.PushImm 18, .RegWrite (.Generic 0)] C6s [] false =
      some (writeGp C6s 0 18, [], false) ∧
    ([] : Stack) = [] :=
  ⟨rfl, rfl,
   C4_stack_discipline 0x6012 [.PushImm 18, .RegWrite (.Generic 0)] C6s
     (writeGp C6s 0 18) [] false rfl rfl⟩

/-- C5: decoding the unrecognized opcode 0x5001 (low nibble ≠ 0) yields
`none`, every `0nnn` other than `00E0`/`00EE` yields `none`, and whenever
decoding yields `none` the driver produces no successor state at all (the
`.expect` panic): the instruction is never silently skipped and the PC is
never advanced past it. -/
theorem C5_illegal_opcode :
    parse_instruction 0x5001 = none ∧
    (∀ inst, inst < 0x1000 → inst ≠ 0xE0 → inst ≠ 0xEE →
      parse_instruction inst = none) ∧
    (∀ s, parse_instruction (fetchWord s) = none → run_instruction s = none) := by
  refine ⟨rfl, ?_, ?_⟩
  · intro inst hlt he hee
    have h1 : inst / 4096 % 16 = 0 := by omega
    simp only [parse_instruction, h1]
    simp [he, hee]
  · intro s h
    unfold run_instruction
    rw [h]

/-- C5 (witness): the halting conjunct applied to the concrete state `C5s`,
whose fetched word is 0x5001. -/
theorem C5_witness : run_instruction C5s = none :=
  C5_illegal_opcode.2.2 C5s rfl

/-- C6: the decoder maps `2nnn` to `[PushImm16 nnn, Call]` and `00EE` to
`[Ret]`, but `execute` has no implementation for `Call` or `Ret` (their match
arms are commented out and fall into `unimplemented!()`), so every execution
of a `2nnn` or `00EE` micro-program panics: the call stack is never pushed or
popped and the PC is never redirected. -/
theorem C6_call_ret_unimplemented :
    (∀ (s : Machine) (st : Stack), execute .Call s st = none) ∧
    (∀ (s : Machine) (st : Stack), execute .Ret s st = none) ∧
    parse_instruction 0x2123 = some [.PushImm16 0x123, .Call] ∧
    parse_instruction 0xEE = some [.Ret] ∧
    runProg [.PushImm16 0x123, .Call] C6s [] false = none ∧
    runProg [.Ret] C6s [] false = none :=
  ⟨fun _ _ => rfl, fun _ _ => rfl, rfl, rfl, rfl, rfl⟩

/-- C7: `Fx55` followed by `Fx65` with the same x and the index register
reset to its pre-store value restores every register 0..x. -/
theorem C7_store_load_roundtrip (x : Nat) (hx : x < 16) (s : Machine)
    (r : Nat) (hr : r ≤ x) :
    ∃ progS progL s1 f1 s2 f2,
      parse_instruction (0xF055 + 256 * x) = some progS ∧
      parse_instruction (0xF065 + 256 * x) = some progL ∧
      runProg progS s [] false = some (s1, [], f1) ∧
      runProg progL { s1 with i := s.i } [] false = some (s2, [], f2) ∧
      s2.reg r = s.reg r := by
  have h1 : (0xF055 + 256 * x) / 4096 % 16 = 15 := by omega
  have h2 : (0xF055 + 256 * x) / 256 % 16 = x := by omega
  have hk : (0xF055 + 256 * x) % 256 = 0x55 := by omega
  have h1L : (0xF065 + 256 * x) / 4096 % 16 = 15 := by omega
  have h2L : (0xF065 + 256 * x) / 256 % 16 = x := by omega
  have hkL : (0xF065 + 256 * x) % 256 = 0x65 := by omega
  refine ⟨blockSeq storeBody 0 (x + 1), blockSeq loadBody 0 (x + 1),
          storeRun 0 (x + 1) s, false,
          loadRun 0 (x + 1) { storeRun 0 (x + 1) s with i := s.i }, false,
          ?_, ?_, runProg_storeSeq (x + 1) 0 s false,
          runProg_loadSeq (x + 1) 0 _ false, ?_⟩
  · simp only [parse_instruction, h1, h2, hk]
  · simp only [parse_instruction, h1L, h2L, hkL]
  · set s1 := storeRun 0 (x + 1) s
    have hload := loadRun_reg_written (x + 1) 0 { s1 with i := s.i } r (by omega)
    simp only [Nat.zero_add] at hload
    rw [hload]
    show s1.mem ((s.i + r) % 4096) = s.reg r
    have hstore := storeRun_mem_written (x + 1) 0 s r (by omega) (by omega)
    simp only [Nat.zero_add] at hstore
    exact hstore

/-- C7 (witness): the store/load round trip applied at x = 2, register 1, on
the concrete state `Ws`. -/
theorem C7_witness :
    ∃ progS progL s1 f1 s2 f2,
      parse_instruction (0xF055 + 256 * 2) = some progS ∧
      parse_instruction (0xF065 + 256 * 2) = some progL ∧
      runProg progS Ws [] false = some (s1, [], f1) ∧
      runProg progL { s1 with i := Ws.i } [] false = some (s2, [], f2) ∧
      s2.reg 1 = Ws.reg 1 :=
  C7_store_load_roundtrip 2 (by decide) Ws 1 (by decide)

/-- C8: executing the `Fx33` micro-program stores v / 100 at the (12-bit
masked) index address, (v / 10) % 10 at the next address and v % 10 at the
one after, where v is the byte in register x. -/
theorem C8_bcd (x : Nat) (hx : x < 16) (s : Machine) (hv : s.reg x < 256) :
    ∃ prog fin, parse_instruction (0xF033 + 256 * x) = some prog ∧
      runProg prog s [] false = some (fin, [], false) ∧
      fin.mem (s.i % 4096) = s.reg x / 100 ∧
      fin.mem ((s.i + 1) % 4096) = s.reg x / 10 % 10 ∧
      fin.mem ((s.i + 2) % 4096) = s.reg x % 10 := by
  have h1 : (0xF033 + 256 * x) / 4096 % 16 = 15 := by omega
  have h2 : (0xF033 + 256 * x) / 256 % 16 = x := by omega
  have hk : (0xF033 + 256 * x) % 256 = 0x33 := by omega
  refine ⟨prog33 x, _, ?_, runProg_prog33 x s, ?_, ?_, ?_⟩
  · simp only [parse_instruction, h1, h2, hk]
    rfl
  · simp only [writeMem]
    rw [if_pos (by omega)]
    omega
  · simp only [writeMem]
    rw [if_neg (by omega), if_pos (by omega)]
  · simp only [writeMem]
    rw [if_neg (by omega), if_neg (by omega), if_pos (by omega)]

/-- C8 (witness): BCD store applied at x = 3 on `W8s` (register 3 holds 255),
together with the claim's example digits 2, 5, 5. -/
theorem C8_witness :
    (∃ prog fin, parse_instruction (0xF033 + 256 * 3) = some prog ∧
      runProg prog W8s [] false = some (fin, [], false) ∧
      fin.mem (W8s.i % 4096) = W8s.reg 3 / 100 ∧
      fin.mem ((W8s.i + 1) % 4096) = W8s.reg 3 / 10 % 10 ∧
      fin.mem ((W8s.i + 2) % 4096) = W8s.reg 3 % 10) ∧
    W8s.reg 3 / 100 = 2 ∧ W8s.reg 3 / 10 % 10 = 5 ∧ W8s.reg 3 % 10 = 5 :=
  ⟨C8_bcd 3 (by decide) W8s (by decide), by decide, by decide, by decide⟩

/-- C9 (counterexample): a full fetch-execute cycle on opcode `3005` from
PC = 0xFFE with register 0 = 0 (not equal to kk = 5, so the skip is not
taken) ends with PC = 0 — the driver masks `(pc + 2) & 0xFFF` — not the
claimed pre-fetch PC + 2 = 0x1000, so the claim fails at the top of memory. -/
theorem C9_counterexample :
    (run_instruction C9s).map Machine.pc = some 0 ∧
    C9s.reg 0 ≠ 5 ∧ (0 : Nat) ≠ C9s.pc + 2 :=
  ⟨rfl, by decide, by decide⟩

/-- C9 (amended): one full fetch-execute cycle on opcode `3xkk` (fetched from
memory at the current 12-bit PC) advances the PC by 4 from its pre-fetch
value when register x equals kk (unmasked, cf. C3), and sets it to
(PC + 2) mod 0x1000 when it does not — by 2 except at PC = 0xFFE/0xFFF,
where the driver's masked advance wraps. -/
theorem C9_skip_pc_advance (x kk : Nat) (hx : x < 16) (hkk : kk < 256)
    (s : Machine)
    (hm1 : s.mem (s.pc % 4096) = 48 + x)
    (hm2 : s.mem ((s.pc + 1) % 4096) = kk)
    (hpc : s.pc < 4096) :
    ∃ fin, run_instruction s = some fin ∧
      fin.pc = (if s.reg x = kk then s.pc + 4 else (s.pc + 2) % 4096) := by
  have hw : fetchWord s = 12288 + 256 * x + kk := by
    unfold fetchWord readMem
    rw [hm1, hm2, lor_as_add _ _ hkk]
    ring
  have h1 : (12288 + 256 * x + kk) / 4096 % 16 = 3 := by omega
  have h2 : (12288 + 256 * x + kk) / 256 % 16 = x := by omega
  have hk : (12288 + 256 * x + kk) % 256 = kk := by omega
  have hparse : parse_instruction (12288 + 256 * x + kk) =
      some [.RegRead (.Generic x), .PushImm kk, .Equal, .CondSkipPC] := by
    simp only [parse_instruction, h1, h2, hk]
  by_cases hEq : s.reg x = kk
  · refine ⟨{ s with pc := s.pc + 4 }, ?_, by simp [hEq]⟩
    unfold run_instruction
    rw [hw, hparse]
    simp [runProg, execute, hEq]
  · refine ⟨{ s with pc := (s.pc + 2) % 4096 }, ?_, by simp [hEq]⟩
    unfold run_instruction
    rw [hw, hparse]
    have hbeq : (kk == s.reg x) = false := by
      simp [Ne.symm hEq]
    simp [runProg, execute, hbeq]

/-- C9 (witness): the amended skip-cycle theorem applied to `W9s` (opcode
`3005` at PC 0x200, register 0 holds 5, skip taken). -/
theorem C9_witness :
    ∃ fin, run_instruction W9s = some fin ∧
      fin.pc = (if W9s.reg 0 = 5 then W9s.pc + 4 else (W9s.pc + 2) % 4096) :=
  C9_skip_pc_advance 0 5 (by decide) (by decide) W9s (by decide) (by decide)
    (by decide)

/-- C10: executing the `Fx33` micro-program leaves the index register
unchanged, and the decoded sequence contains no `SetI` operation. -/
theorem C10_bcd_preserves_index (x : Nat) (hx : x < 16) (s : Machine) :
    ∃ prog fin, parse_instruction (0xF033 + 256 * x) = some prog ∧
      runProg prog s [] false = some (fin, [], false) ∧
      fin.i = s.i ∧ IntermediateInst.SetI ∉ prog := by
  have h1 : (0xF033 + 256 * x) / 4096 % 16 = 15 := by omega
  have h2 : (0xF033 + 256 * x) / 256 % 16 = x := by omega
  have hk : (0xF033 + 256 * x) % 256 = 0x33 := by omega
  refine ⟨prog33 x, _, ?_, runProg_prog33 x s, rfl, ?_⟩
  · simp only [parse_instruction, h1, h2, hk]
    rfl
  · simp [prog33]

/-- C10 (witness): index-register preservation applied at x = 3 on `Ws`. -/
theorem C10_witness :
    ∃ prog fin, parse_instruction (0xF033 + 256 * 3) = some prog ∧
      runProg prog Ws [] false = some (fin, [], false) ∧
      fin.i = Ws.i ∧ IntermediateInst.SetI ∉ prog :=
  C10_bcd_preserves_index 3 (by decide) Ws

end Opt8
